import Mathlib

/-!
Verification of the golden-file LaTeX test harness (tests/run_tests.py).

The Python source is shallowly embedded as executable Lean definitions:

* Text is modelled as a list of characters (`List Char`).  We restrict the
  character model to texts whose only line terminator is the LF character
  and whose whitespace characters are the space, the tab and LF; on such
  texts Python's str.splitlines, str.split and str.strip behave exactly as
  the Lean functions below.
* Paths are modelled as lists of components (the result of splitting a path
  string on the OS separator).
* The file system, and the exit statuses and observable outcomes of
  external subprocesses (latexmk, pdftotext, pytest, nbdiff), are supplied
  as explicit environment records; the control flow of the per-test
  pipeline of run_latex_tests is translated faithfully from the source.
* Fallible code (Python IndexError, sys.exit) is modelled with Option and
  Except.
-/

/-- Whitespace characters of the restricted text model: space, tab, LF. -/
def isSpace (c : Char) : Bool := c == ' ' || c == '\t' || c == '\n'

/-- Helper of splitlines: accumulates the current line (in reverse). -/
def splitlinesAux : List Char → List Char → List (List Char)
  | [], acc => if acc.isEmpty then [] else [acc.reverse]
  | c :: cs, acc =>
    if c = '\n' then acc.reverse :: splitlinesAux cs []
    else splitlinesAux cs (c :: acc)

/-- Python str.splitlines on LF-terminated text: splits at every LF and
does not produce a trailing empty line for a trailing LF. -/
def splitlines (t : List Char) : List (List Char) := splitlinesAux t []

/-- Python truthiness of line.strip(): the line has a non-whitespace
character. -/
def stripNonempty (l : List Char) : Bool := l.any (fun c => !isSpace c)

/-- Embedding of normalize_text (tests/run_tests.py): split the text into
lines, drop the lines that are empty after stripping, and remove every
whitespace character from each remaining line. -/
def normalize_text (t : List Char) : List (List Char) :=
  ((splitlines t).filter stripNonempty).map (fun l => l.filter (fun c => !isSpace c))

/-- Python rstrip(): remove trailing whitespace characters. -/
def pyRstrip (l : List Char) : List Char :=
  (l.reverse.dropWhile isSpace).reverse

/-- Python line.endswith of a one-character suffix. -/
def endsWithTilde (l : List Char) : Bool := l.getLast? == some '~'

/-- Helper of merge_lines_with_continuation: the loop with its buffer. -/
def mergeLinesAux : List (List Char) → List Char → List (List Char)
  | [], buffer => if buffer.isEmpty then [] else [buffer]
  | line :: rest, buffer =>
    let line := pyRstrip line
    if endsWithTilde line then mergeLinesAux rest (buffer ++ line.dropLast)
    else if !buffer.isEmpty then (buffer ++ line) :: mergeLinesAux rest []
    else line :: mergeLinesAux rest []

/-- Embedding of merge_lines_with_continuation (tests/run_tests.py):
merge consecutive lines that end with the continuation character,
dropping the markers; a buffer left at the end of the input is emitted
as a final line. -/
def merge_lines_with_continuation (lines : List (List Char)) : List (List Char) :=
  mergeLinesAux lines []

/-- The buffer update of one iteration of the merge loop: a marked line is
accumulated, an unmarked line resets the buffer (its content is emitted). -/
def mergeStep (buffer line : List Char) : List Char :=
  let line := pyRstrip line
  if endsWithTilde line then buffer ++ line.dropLast else []

/-- The buffered content that merge_lines_with_continuation holds after
consuming all input lines; this is the fold of the buffer update of the
source loop. -/
def finalBuffer (lines : List (List Char)) : List Char :=
  lines.foldl mergeStep []

/-- Python substring containment (needle in hay) on the character model. -/
def containsSub : List Char → List Char → Bool
  | n, [] => n.isEmpty
  | n, c :: t => n.isPrefixOf (c :: t) || containsSub n t

/-- The indexing normalize_text(line)[0] of the source, modelled fallibly:
none corresponds to a Python IndexError on an empty list. -/
def normHead (line : List Char) : Option (List Char) := (normalize_text line).head?

/-- The list comprehension of check_ordered_subsequence_with_missing:
keep the lines whose strip() is truthy and take the first normalized line
of each; a failing index access makes the whole computation none. -/
def normFragments (lines : List (List Char)) : Option (List (List Char)) :=
  (lines.filter stripNonempty).mapM normHead

/-- The cursor loop of check_ordered_subsequence_with_missing: scan the
actual lines once, advancing over the expected list on a substring hit;
succeed when the expected list is exhausted. -/
def scanExpected : List (List Char) → List (List Char) → Bool
  | [], _ => true
  | _ :: _, [] => false
  | e :: es, a :: as =>
    if containsSub e a then scanExpected es as else scanExpected (e :: es) as

/-- Embedding of check_ordered_subsequence_with_missing
(tests/run_tests.py): both inputs are filtered and normalized, then the
expected fragments are matched, in order, as substrings of the actual
lines. -/
def check_ordered_subsequence_with_missing
    (expected_lines actual_lines : List (List Char)) : Option Bool := do
  let expected ← normFragments expected_lines
  let actual ← normFragments actual_lines
  pure (scanExpected expected actual)

/-- Specification-side matching relation: the expected fragments occur, in
their given relative order, as substrings of distinct actual lines taken
in order. -/
inductive MatchesInOrder : List (List Char) → List (List Char) → Prop where
  | nil (as : List (List Char)) : MatchesInOrder [] as
  | here (e : List Char) (es : List (List Char)) (a : List Char) (as : List (List Char)) :
      containsSub e a = true → MatchesInOrder es as → MatchesInOrder (e :: es) (a :: as)
  | there (es : List (List Char)) (a : List Char) (as : List (List Char)) :
      MatchesInOrder es as → MatchesInOrder es (a :: as)

/-- Embedding of the FailureCounter state (tests/run_tests.py). -/
structure FailureCounter where
  count : Int
  maxfail : Int
deriving DecidableEq, Repr

/-- Embedding of FailureCounter.__iadd__ (tests/run_tests.py): add n to
the count; when the new count reaches or exceeds maxfail the program
exits with status 1, modelled as an error carrying the exit status. -/
def FailureCounter.iadd (self : FailureCounter) (n : Int) : Except Int FailureCounter :=
  let count := self.count + n
  if count ≥ self.maxfail then Except.error 1
  else Except.ok ⟨count, self.maxfail⟩

/-- Characters used for the amended whitespace claim: space and tab (the
whitespace characters that are not line breaks). -/
def isSpaceTab (c : Char) : Bool := c == ' ' || c == '\t'

/-- Remove every space and tab character of a text, leaving the line
structure intact. -/
def eraseSpaceTab (t : List Char) : List Char := t.filter (fun c => !isSpaceTab c)

/-- The per-line part of normalize_text, as a function of the split lines. -/
def normLines (ls : List (List Char)) : List (List Char) :=
  (ls.filter stripNonempty).map (fun l => l.filter (fun c => !isSpace c))

/-- JSON values as read by json.load: notebooks are such values.  Objects
are modelled as association lists in insertion order (Python dict order);
the notebooks handled by the harness have distinct keys per object. -/
inductive Json where
  | null
  | bool (b : Bool)
  | num (n : Int)
  | str (s : String)
  | arr (elems : List Json)
  | obj (fields : List (String × Json))

/-- Look up a key in an object field list (first match). -/
def findField : List (String × Json) → String → Option Json
  | [], _ => none
  | (k', v') :: rest, k => if k' == k then some v' else findField rest k

/-- Replace the value at a key in an object field list; entries with other
keys are untouched and the order is preserved (Python dict assignment of
an existing key). -/
def setField : List (String × Json) → String → Json → List (String × Json)
  | [], _, _ => []
  | (k', v') :: rest, k, v => (if k' == k then (k, v) else (k', v')) :: setField rest k v

/-- Python d.get(k): the value at key k of an object, if any. -/
def Json.find? : Json → String → Option Json
  | .obj fs, k => findField fs k
  | _, _ => none

/-- Python (k in d): key membership of an object. -/
def Json.hasKey (j : Json) (k : String) : Bool := (j.find? k).isSome

/-- Python d[k] = v for a key that is present: replace the value at k.
All uses in the source are guarded by a key-membership test, so no
insertion case is needed. -/
def Json.setKey : Json → String → Json → Json
  | .obj fs, k, v => .obj (setField fs k v)
  | j, _, _ => j

/-- The guarded assignment pattern of the source: if k in d, set d[k]. -/
def Json.condSet (j : Json) (k : String) (v : Json) : Json :=
  if j.hasKey k then j.setKey k v else j

/-- The in-place loop pattern of the source: when key k holds an array,
replace it with the elementwise image under f (mutating every element of
d[k]); when k is absent the loop body never runs.  Values of other shapes
are outside the domain handled by the source and are left unchanged. -/
def mapArrAt (k : String) (f : Json → Json) (j : Json) : Json :=
  match j.find? k with
  | some (.arr xs) => j.setKey k (.arr (xs.map f))
  | _ => j

/-- The per-output mutation of normalize_notebook: reset an output's
execution_count to None and its metadata to an empty dict, each when
present. -/
def normalizeOutput (o : Json) : Json :=
  (o.condSet "execution_count" Json.null).condSet "metadata" (Json.obj [])

/-- The per-cell mutation of normalize_notebook: reset the cell's
execution_count and metadata when present, then normalize every output
when the cell has outputs. -/
def normalizeCell (c : Json) : Json :=
  mapArrAt "outputs" normalizeOutput
    ((c.condSet "execution_count" Json.null).condSet "metadata" (Json.obj []))

/-- Embedding of normalize_notebook (tests/run_tests.py): reset the
top-level metadata when present, then normalize every cell. -/
def normalize_notebook (nb : Json) : Json :=
  mapArrAt "cells" normalizeCell (nb.condSet "metadata" (Json.obj []))

/-- Reset exactly the execution counters of an output, nothing else.
Used to say when two notebooks differ only in execution counters. -/
def clearOutputExec (o : Json) : Json := o.condSet "execution_count" Json.null

/-- Reset exactly the execution counters of a cell and of its outputs. -/
def clearCellExec (c : Json) : Json :=
  mapArrAt "outputs" clearOutputExec (c.condSet "execution_count" Json.null)

/-- Reset exactly the execution counters of a notebook: two notebooks
differ only in execution counters precisely when their images under this
map coincide. -/
def clearExecCounts (nb : Json) : Json := mapArrAt "cells" clearCellExec nb

/-- The cell list of a notebook (empty when absent or not an array). -/
def Json.cells (nb : Json) : List Json :=
  match nb.find? "cells" with
  | some (.arr cs) => cs
  | _ => []

/-- The per-cell values at a given key, in cell order. -/
def cellField (k : String) (nb : Json) : List (Option Json) :=
  nb.cells.map (fun c => c.find? k)

/-- The cell source texts of a notebook, in cell order. -/
def cellSources (nb : Json) : List (Option Json) := cellField "source" nb

/-- The per-cell id values of a notebook, in cell order. -/
def cellIds (nb : Json) : List (Option Json) := cellField "id" nb

/-- The output list of a cell (empty when absent or not an array). -/
def Json.outputsArr (c : Json) : List Json :=
  match c.find? "outputs" with
  | some (.arr os) => os
  | _ => []

/-- The output text payloads of a notebook, per cell and in order. -/
def outputTexts (nb : Json) : List (List (Option Json)) :=
  nb.cells.map (fun c => c.outputsArr.map (fun o => o.find? "text"))

/-- A file-system path, split at the OS separator into components. -/
abbrev FsPath := List String

/-- Code-point comparison of two character lists, as Python compares
strings. -/
def charListLe : List Char → List Char → Bool
  | [], _ => true
  | _ :: _, [] => false
  | a :: as, b :: bs => if a = b then charListLe as bs else decide (a.toNat < b.toNat)

/-- The path string of a component list, joined with the separator. -/
def pathString : FsPath → List Char
  | [] => []
  | [c] => c.toList
  | c :: rest => c.toList ++ '/' :: pathString rest

/-- Comparison of paths by their joined path strings, as sorted() compares
the strings returned by glob. -/
def pathLe (p q : FsPath) : Bool := charListLe (pathString p) (pathString q)

/-- Insertion into a sorted list of paths. -/
def insertPath (x : FsPath) : List FsPath → List FsPath
  | [] => [x]
  | y :: ys => if pathLe y x then y :: insertPath x ys else x :: y :: ys

/-- Python sorted() on a list of paths. -/
def sortPaths (ps : List FsPath) : List FsPath := ps.foldr insertPath []

/-- Python s.startswith(p), computed on the character lists. -/
def pyStartsWith (s p : String) : Bool := p.toList.isPrefixOf s.toList

/-- Python s.endswith(p), computed on the character lists. -/
def pyEndsWith (s p : String) : Bool := p.toList.reverse.isPrefixOf s.toList.reverse

/-- Whether a file name matches the discovery pattern test_*.tex of the
glob calls in main. -/
def matchesTestTex (name : String) : Bool :=
  pyStartsWith name "test_" && pyEndsWith name ".tex"

/-- os.path.basename on the component model: the last component. -/
def basenameOf (p : FsPath) : String := p.getLastD ""

/-- Embedding of is_in_xsim_files_dir (tests/run_tests.py): the path is
split at the separator and any component may carry the reserved prefix
(the source checks every part, the basename included). -/
def is_in_xsim_files_dir (path : FsPath) : Bool :=
  path.any (fun part => pyStartsWith part "xsim-files")

/-- The file system visible to main: the existing regular files and the
existing directories, as component paths relative to the working
directory. -/
structure FS where
  files : List FsPath
  dirs : List FsPath

/-- os.path.isfile. -/
def FS.isFile (fs : FS) (p : FsPath) : Bool := fs.files.contains p

/-- os.path.isdir. -/
def FS.isDir (fs : FS) (p : FsPath) : Bool := fs.dirs.contains p

/-- glob.glob(os.path.join(dir, "**", "test_*.tex"), recursive=True)
followed by sorted(): every existing file below dir whose base name
matches the pattern, in sorted order.  For the autodiscovery call the
directory is the working directory, i.e. the empty component list. -/
def globTests (fs : FS) (dir : FsPath) : List FsPath :=
  sortPaths (fs.files.filter (fun f => dir.isPrefixOf f && matchesTestTex (basenameOf f)))

/-- The positional-argument loop of main: a .tex file argument is used
directly; a directory argument is scanned recursively and filtered by
is_in_xsim_files_dir; anything else is a usage error, sys.exit(1). -/
def resolveArgs (fs : FS) : List FsPath → Except Int (List FsPath)
  | [] => Except.ok []
  | p :: rest =>
    if fs.isFile p && pyEndsWith (basenameOf p) ".tex" then
      (resolveArgs fs rest).map (fun ts => p :: ts)
    else if fs.isDir p then
      (resolveArgs fs rest).map
        (fun ts => (globTests fs p).filter (fun f => !is_in_xsim_files_dir f) ++ ts)
    else Except.error 1

/-- Embedding of the test-resolution logic of main (tests/run_tests.py),
after the flag arguments have been removed: no arguments triggers
autodiscovery from the current directory with the xsim filter; otherwise
each argument is resolved by resolveArgs. -/
def resolveTests (fs : FS) (args : List FsPath) : Except Int (List FsPath) :=
  if args.isEmpty then
    Except.ok ((globTests fs []).filter (fun f => !is_in_xsim_files_dir f))
  else resolveArgs fs args

/-- The statuses a test prints (the pipeline can print more than one for a
single test). -/
inductive StatusP where
  | fail
  | xfail
  | regolded
  | pass
deriving DecidableEq, Repr

/-- The externally determined facts one iteration of run_latex_tests
observes: subprocess exit statuses, file existence, and the outcomes of
the comparisons on the produced artifacts. -/
structure PipeEnv where
  prereqRets : List Int
  mainRet : Int
  isFailTest : Bool
  expectedErrExists : Bool
  fragMatch : Bool
  pdfExists : Bool
  pdftotextRet : Int
  hasMarker : Bool
  expectedTxtExists : Bool
  textEqual : Bool
  hasNotebookDir : Bool
  nbCompareFailed : Bool
  nbSetMismatch : Bool
  runNbval : Bool
  nbvalRet : Int
deriving DecidableEq, Repr

/-- The observable outcome of one iteration of run_latex_tests: statuses
printed in order, failure-counter increments, whether the actual text was
copied over the expected text, whether the main latexmk compile was
invoked, and whether the end-of-iteration cleanup was reached. -/
structure PipeResult where
  printed : List StatusP
  failuresAdded : Nat
  copiedExpectedTxt : Bool
  mainCompiled : Bool
  endCleanupRan : Bool
deriving DecidableEq, Repr

/-- The requirement-compilation loop: every entry of the requires list is
compiled; each failure prints FAIL and increments the counter, and the
continue statement of the source targets this inner loop, so the loop
just moves to the next requirement. -/
def prereqStep (rets : List Int) : List StatusP × Nat :=
  (((rets.filter (fun r => r ≠ 0)).map (fun _ => StatusP.fail)),
   (rets.filter (fun r => r ≠ 0)).length)

/-- The notebook-comparison tail of a normal test (entered only when the
text comparison succeeded), followed by the PASS print and the
end-of-iteration cleanup. -/
def afterTextStep (env : PipeEnv) (regold : Bool) (pre : List StatusP × Nat) : PipeResult :=
  if env.hasNotebookDir then
    if env.nbCompareFailed then
      ⟨pre.1 ++ [if regold then StatusP.regolded else StatusP.fail], pre.2 + 1, false, true, false⟩
    else if env.nbSetMismatch then
      ⟨pre.1 ++ [StatusP.fail], pre.2 + 1, false, true, false⟩
    else if env.runNbval && env.nbvalRet ≠ 0 then
      ⟨pre.1 ++ [StatusP.fail], pre.2 + 1, false, true, false⟩
    else
      ⟨pre.1 ++ [StatusP.pass], pre.2, false, true, true⟩
  else
    ⟨pre.1 ++ [StatusP.pass], pre.2, false, true, true⟩

/-- Embedding of one iteration of the test loop of run_latex_tests
(tests/run_tests.py), from the requirement compiles onward.  The main
compile is always invoked, because the continue after a requirement
failure only advances the requires loop.  Every later continue of the
source skips to the next test, so the end-of-iteration cleanup is reached
only on the XFAIL and PASS paths. -/
def runOneTest (env : PipeEnv) (regold : Bool) : PipeResult :=
  let pre := prereqStep env.prereqRets
  if env.isFailTest then
    if env.mainRet = 0 then
      ⟨pre.1 ++ [StatusP.fail], pre.2 + 1, false, true, false⟩
    else if env.expectedErrExists then
      if env.fragMatch then
        ⟨pre.1 ++ [StatusP.xfail], pre.2, false, true, true⟩
      else
        ⟨pre.1 ++ [StatusP.fail], pre.2 + 1, false, true, false⟩
    else
      ⟨pre.1 ++ [StatusP.fail], pre.2 + 1, false, true, false⟩
  else
    if env.mainRet ≠ 0 then
      ⟨pre.1 ++ [StatusP.fail], pre.2 + 1, false, true, false⟩
    else if !env.pdfExists then
      ⟨pre.1 ++ [StatusP.fail], pre.2 + 1, false, true, false⟩
    else if env.pdftotextRet ≠ 0 then
      ⟨pre.1 ++ [StatusP.fail], pre.2 + 1, false, true, false⟩
    else if env.hasMarker then
      ⟨pre.1 ++ [StatusP.fail], pre.2 + 1, false, true, false⟩
    else if env.expectedTxtExists then
      if !env.textEqual then
        ⟨pre.1 ++ [if regold then StatusP.regolded else StatusP.fail], pre.2 + 1, regold, true, false⟩
      else afterTextStep env regold pre
    else
      ⟨pre.1 ++ [if regold then StatusP.regolded else StatusP.fail], pre.2 + 1, true, true, false⟩

/-- Concrete notebook used by witnesses: cell and output execution
counters set to 1. -/
def nbWitExecA : Json := Json.obj [
  ("metadata", Json.obj [("lang", Json.str "py")]),
  ("cells", Json.arr [Json.obj [
    ("cell_type", Json.str "code"),
    ("source", Json.str "print(1)"),
    ("execution_count", Json.num 1),
    ("outputs", Json.arr [Json.obj [
      ("execution_count", Json.num 1),
      ("text", Json.str "1")]])]])]

/-- The same notebook with every execution counter set to 2. -/
def nbWitExecB : Json := Json.obj [
  ("metadata", Json.obj [("lang", Json.str "py")]),
  ("cells", Json.arr [Json.obj [
    ("cell_type", Json.str "code"),
    ("source", Json.str "print(1)"),
    ("execution_count", Json.num 2),
    ("outputs", Json.arr [Json.obj [
      ("execution_count", Json.num 2),
      ("text", Json.str "1")]])]])]

/-- Concrete notebook used by witnesses: one code cell printing 1. -/
def nbWitSrcA : Json := Json.obj [
  ("cells", Json.arr [Json.obj [
    ("cell_type", Json.str "code"),
    ("source", Json.str "print(1)")]])]

/-- The same notebook with the cell source changed to print 2. -/
def nbWitSrcB : Json := Json.obj [
  ("cells", Json.arr [Json.obj [
    ("cell_type", Json.str "code"),
    ("source", Json.str "print(2)")]])]

/-- Concrete notebook used by witnesses: one cell with id a. -/
def nbWitIdA : Json := Json.obj [
  ("cells", Json.arr [Json.obj [
    ("id", Json.str "a"),
    ("cell_type", Json.str "code"),
    ("source", Json.str "x")]])]

/-- The same notebook with the cell id changed to b. -/
def nbWitIdB : Json := Json.obj [
  ("cells", Json.arr [Json.obj [
    ("id", Json.str "b"),
    ("cell_type", Json.str "code"),
    ("source", Json.str "x")]])]


theorem isSpaceTab_isSpace {c : Char} (h : isSpaceTab c = true) : isSpace c = true := by
  simp [isSpaceTab] at h
  rcases h with h | h <;> simp [isSpace, h]

theorem filter_nw_eraseSpaceTab (l : List Char) :
    (eraseSpaceTab l).filter (fun c => !isSpace c) = l.filter (fun c => !isSpace c) := by
  rw [eraseSpaceTab, List.filter_filter]
  congr 1
  funext c
  by_cases h : isSpaceTab c = true
  · simp [h, isSpaceTab_isSpace h]
  · simp [Bool.not_eq_true] at h
    simp [h]

theorem any_nw_eraseSpaceTab (l : List Char) :
    (eraseSpaceTab l).any (fun c => !isSpace c) = l.any (fun c => !isSpace c) := by
  rw [eraseSpaceTab, List.any_filter]
  congr 1
  funext c
  by_cases h : isSpaceTab c = true
  · simp [h, isSpaceTab_isSpace h]
  · simp [Bool.not_eq_true] at h
    simp [h]

theorem stripNonempty_reverse (l : List Char) : stripNonempty l.reverse = stripNonempty l := by
  simp [stripNonempty, List.any_reverse]

theorem stripNonempty_eraseSpaceTab (l : List Char) :
    stripNonempty (eraseSpaceTab l) = stripNonempty l := by
  simp [stripNonempty, any_nw_eraseSpaceTab]

theorem stripNonempty_of_eraseSpaceTab_nil {l : List Char} (h : eraseSpaceTab l = []) :
    stripNonempty l = false := by
  rw [← stripNonempty_eraseSpaceTab, h]
  rfl

theorem normLines_cons (x : List Char) (ls : List (List Char)) :
    normLines (x :: ls) =
      (if stripNonempty x then [x.filter (fun c => !isSpace c)] else []) ++ normLines ls := by
  by_cases h : stripNonempty x = true <;> simp [normLines, List.filter_cons, h]

theorem normLines_single_eraseSpaceTab (acc : List Char) :
    normLines [(eraseSpaceTab acc).reverse] = normLines [acc.reverse] := by
  rw [normLines_cons, normLines_cons]
  rw [stripNonempty_reverse, stripNonempty_reverse, stripNonempty_eraseSpaceTab]
  by_cases h : stripNonempty acc = true
  · simp only [h, if_pos]
    rw [List.filter_reverse, List.filter_reverse, filter_nw_eraseSpaceTab]
  · simp [h]

theorem headPiece_eraseSpaceTab (acc : List Char) :
    (if stripNonempty (eraseSpaceTab acc).reverse
      then [((eraseSpaceTab acc).reverse).filter (fun c => !isSpace c)] else [])
    = (if stripNonempty acc.reverse then [acc.reverse.filter (fun c => !isSpace c)] else []) := by
  have h := normLines_single_eraseSpaceTab acc
  rw [normLines_cons, normLines_cons] at h
  simpa using h

theorem normLines_splitlinesAux_eraseSpaceTab :
    ∀ (t acc : List Char),
      normLines (splitlinesAux (eraseSpaceTab t) (eraseSpaceTab acc)) =
        normLines (splitlinesAux t acc) := by
  intro t
  induction t with
  | nil =>
    intro acc
    show normLines (splitlinesAux [] (eraseSpaceTab acc)) = normLines (splitlinesAux [] acc)
    by_cases hacc : acc = []
    · subst hacc; rfl
    · have h1 : acc.isEmpty = false := by simp [List.isEmpty_iff, hacc]
      by_cases he : eraseSpaceTab acc = []
      · have h2 : (eraseSpaceTab acc).isEmpty = true := by simp [List.isEmpty_iff, he]
        simp only [splitlinesAux, h1, h2, Bool.false_eq_true, ite_false, ite_true]
        rw [normLines_cons]
        rw [stripNonempty_reverse, stripNonempty_of_eraseSpaceTab_nil he]
        rfl
      · have h2 : (eraseSpaceTab acc).isEmpty = false := by simp [List.isEmpty_iff, he]
        simp only [splitlinesAux, h1, h2, Bool.false_eq_true, ite_false]
        exact normLines_single_eraseSpaceTab acc
  | cons c cs ih =>
    intro acc
    by_cases hst : isSpaceTab c = true
    · have hnl : ¬ (c = '\n') := by
        simp [isSpaceTab] at hst
        rcases hst with h | h <;> subst h <;> decide
      have h1 : eraseSpaceTab (c :: cs) = eraseSpaceTab cs := by
        simp [eraseSpaceTab, List.filter_cons, hst]
      have h2 : eraseSpaceTab (c :: acc) = eraseSpaceTab acc := by
        simp [eraseSpaceTab, List.filter_cons, hst]
      have hr : splitlinesAux (c :: cs) acc = splitlinesAux cs (c :: acc) := by
        simp [splitlinesAux, hnl]
      rw [h1, hr, ← h2]
      exact ih (c :: acc)
    · by_cases hnl : c = '\n'
      · subst hnl
        have h1 : eraseSpaceTab ('\n' :: cs) = '\n' :: eraseSpaceTab cs := by
          simp [eraseSpaceTab, List.filter_cons, hst]
        have hL : splitlinesAux ('\n' :: eraseSpaceTab cs) (eraseSpaceTab acc)
            = (eraseSpaceTab acc).reverse :: splitlinesAux (eraseSpaceTab cs) [] := by
          simp [splitlinesAux]
        have hR : splitlinesAux ('\n' :: cs) acc = acc.reverse :: splitlinesAux cs [] := by
          simp [splitlinesAux]
        rw [h1, hL, hR, normLines_cons, normLines_cons]
        have tail : normLines (splitlinesAux (eraseSpaceTab cs) []) =
            normLines (splitlinesAux cs []) := ih []
        rw [tail, headPiece_eraseSpaceTab]
      · have h1 : eraseSpaceTab (c :: cs) = c :: eraseSpaceTab cs := by
          simp [eraseSpaceTab, List.filter_cons, hst]
        have hL : splitlinesAux (c :: eraseSpaceTab cs) (eraseSpaceTab acc)
            = splitlinesAux (eraseSpaceTab cs) (c :: eraseSpaceTab acc) := by
          simp [splitlinesAux, hnl]
        have hR : splitlinesAux (c :: cs) acc = splitlinesAux cs (c :: acc) := by
          simp [splitlinesAux, hnl]
        have h2 : (c :: eraseSpaceTab acc) = eraseSpaceTab (c :: acc) := by
          simp [eraseSpaceTab, List.filter_cons, hst]
        rw [h1, hL, hR, h2]
        exact ih (c :: acc)

theorem normalize_text_eraseSpaceTab (t : List Char) :
    normalize_text (eraseSpaceTab t) = normalize_text t := by
  have h := normLines_splitlinesAux_eraseSpaceTab t []
  simpa [normalize_text, splitlines, normLines] using h

theorem normLines_splitlinesAux_ne_nil :
    ∀ (t acc : List Char),
      (t.any (fun c => !isSpace c) || acc.any (fun c => !isSpace c)) = true →
      normLines (splitlinesAux t acc) ≠ [] := by
  intro t
  induction t with
  | nil =>
    intro acc h
    simp only [List.any_nil, Bool.false_or] at h
    have hne : acc ≠ [] := by
      intro hc; subst hc; simp at h
    have h1 : acc.isEmpty = false := by simp [List.isEmpty_iff, hne]
    simp only [splitlinesAux, h1, Bool.false_eq_true, ite_false]
    rw [normLines_cons]
    rw [stripNonempty_reverse]
    have h2 : stripNonempty acc = true := h
    simp [h2]
  | cons c cs ih =>
    intro acc h
    by_cases hnl : c = '\n'
    · subst hnl
      have hr : splitlinesAux ('\n' :: cs) acc = acc.reverse :: splitlinesAux cs [] := by
        simp [splitlinesAux]
      rw [hr, normLines_cons, stripNonempty_reverse]
      simp only [List.any_cons] at h
      have hc : (!isSpace '\n') = false := by decide
      rw [hc] at h
      simp only [Bool.false_or] at h
      by_cases ha : acc.any (fun c => !isSpace c) = true
      · have : stripNonempty acc = true := ha
        simp [this]
      · simp only [ha, Bool.or_false] at h
        have tail := ih [] (by simp [h])
        intro hcontr
        rcases List.append_eq_nil.mp hcontr with ⟨_, h2⟩
        exact tail h2
    · have hr : splitlinesAux (c :: cs) acc = splitlinesAux cs (c :: acc) := by
        simp [splitlinesAux, hnl]
      rw [hr]
      apply ih (c :: acc)
      simp only [List.any_cons] at h ⊢
      rcases Bool.or_eq_true_iff.mp h with h1 | h2
      · rcases Bool.or_eq_true_iff.mp h1 with h3 | h4
        · simp [h3]
        · simp [h4]
      · simp [h2]

theorem normalize_text_ne_nil {l : List Char} (h : stripNonempty l = true) :
    normalize_text l ≠ [] := by
  have := normLines_splitlinesAux_ne_nil l [] (by simp [stripNonempty] at h; simp [h])
  simpa [normalize_text, splitlines, normLines] using this

theorem normHead_isSome {l : List Char} (h : stripNonempty l = true) :
    (normHead l).isSome = true := by
  rw [normHead]
  cases hnt : normalize_text l with
  | nil => exact absurd hnt (normalize_text_ne_nil h)
  | cons x xs => rfl

theorem mapM_option_isSome {α β : Type} (f : α → Option β) :
    ∀ (l : List α), (∀ x ∈ l, (f x).isSome = true) → (l.mapM f).isSome = true := by
  intro l
  induction l with
  | nil => intro _; rfl
  | cons x xs ih =>
    intro h
    obtain ⟨b, hb⟩ := Option.isSome_iff_exists.mp (h x (List.mem_cons_self x xs))
    have hxs := ih (fun y hy => h y (List.mem_cons_of_mem x hy))
    obtain ⟨bs, hbs⟩ := Option.isSome_iff_exists.mp hxs
    rw [List.mapM_cons, hb, hbs]
    rfl

theorem normFragments_isSome (ls : List (List Char)) : (normFragments ls).isSome = true := by
  apply mapM_option_isSome
  intro x hx
  exact normHead_isSome (List.mem_filter.mp hx).2

theorem MatchesInOrder.drop :
    ∀ {l as : List (List Char)}, MatchesInOrder l as →
      ∀ {e es}, l = e :: es → MatchesInOrder es as := by
  intro l as h
  induction h with
  | nil _ => intro e es hl; cases hl
  | here e' es' a' as' hc hm _ =>
    intro e es hl
    cases hl
    exact MatchesInOrder.there es' a' as' hm
  | there es' a' as' _ ih =>
    intro e es hl
    exact MatchesInOrder.there es a' as' (ih hl)

theorem scanExpected_complete :
    ∀ (as es : List (List Char)), MatchesInOrder es as → scanExpected es as = true := by
  intro as
  induction as with
  | nil =>
    intro es h
    cases h with
    | nil _ => rfl
  | cons a as ih =>
    intro es h
    cases es with
    | nil => rfl
    | cons e es' =>
      by_cases hc : containsSub e a = true
      · have hrw : scanExpected (e :: es') (a :: as) = scanExpected es' as := by
          simp [scanExpected, hc]
        rw [hrw]
        cases h with
        | here _ _ _ _ _ hm => exact ih es' hm
        | there _ _ _ hm => exact ih es' (hm.drop rfl)
      · have hrw : scanExpected (e :: es') (a :: as) = scanExpected (e :: es') as := by
          simp [scanExpected, hc]
        rw [hrw]
        cases h with
        | here _ _ _ _ hc' _ => exact absurd hc' hc
        | there _ _ _ hm => exact ih (e :: es') hm

theorem scanExpected_sound :
    ∀ (as es : List (List Char)), scanExpected es as = true → MatchesInOrder es as := by
  intro as
  induction as with
  | nil =>
    intro es h
    cases es with
    | nil => exact MatchesInOrder.nil []
    | cons e es' => simp [scanExpected] at h
  | cons a as ih =>
    intro es h
    cases es with
    | nil => exact MatchesInOrder.nil (a :: as)
    | cons e es' =>
      by_cases hc : containsSub e a = true
      · rw [show scanExpected (e :: es') (a :: as) = scanExpected es' as by
          simp [scanExpected, hc]] at h
        exact MatchesInOrder.here e es' a as hc (ih es' h)
      · rw [show scanExpected (e :: es') (a :: as) = scanExpected (e :: es') as by
          simp [scanExpected, hc]] at h
        exact MatchesInOrder.there (e :: es') a as (ih (e :: es') h)

theorem mergeLinesAux_final_buffer :
    ∀ (lines : List (List Char)) (buffer : List Char),
      lines.foldl mergeStep buffer ≠ [] →
      ∃ init, mergeLinesAux lines buffer = init ++ [lines.foldl mergeStep buffer] := by
  intro lines
  induction lines with
  | nil =>
    intro buffer h
    simp only [List.foldl_nil] at h ⊢
    have hb : buffer.isEmpty = false := by simp [List.isEmpty_iff, h]
    exact ⟨[], by simp [mergeLinesAux, hb]⟩
  | cons line rest ih =>
    intro buffer h
    rw [List.foldl_cons] at h ⊢
    by_cases hm : endsWithTilde (pyRstrip line) = true
    · have hstep : mergeStep buffer line = buffer ++ (pyRstrip line).dropLast := by
        simp [mergeStep, hm]
      rw [hstep] at h ⊢
      obtain ⟨init, hinit⟩ := ih (buffer ++ (pyRstrip line).dropLast) h
      refine ⟨init, ?_⟩
      rw [show mergeLinesAux (line :: rest) buffer
          = mergeLinesAux rest (buffer ++ (pyRstrip line).dropLast) from by
        simp [mergeLinesAux, hm]]
      exact hinit
    · have hstep : mergeStep buffer line = [] := by simp [mergeStep, hm]
      rw [hstep] at h ⊢
      obtain ⟨init, hinit⟩ := ih [] h
      by_cases hb : buffer.isEmpty = true
      · refine ⟨pyRstrip line :: init, ?_⟩
        rw [show mergeLinesAux (line :: rest) buffer
            = pyRstrip line :: mergeLinesAux rest [] from by
          simp [mergeLinesAux, hm, hb]]
        simp [hinit]
      · refine ⟨(buffer ++ pyRstrip line) :: init, ?_⟩
        rw [show mergeLinesAux (line :: rest) buffer
            = (buffer ++ pyRstrip line) :: mergeLinesAux rest [] from by
          simp [mergeLinesAux, hm, hb]]
        simp [hinit]

/-- Claim C3, counterexample: the two texts differ only by an inserted
whitespace character (a line feed), yet normalize_text maps them to
different line sequences, refuting the claim for general whitespace. -/
theorem normalize_text_whitespace_counterexample :
    ("ab".toList.filter (fun c => !isSpace c) = "a\nb".toList.filter (fun c => !isSpace c)) ∧
    normalize_text "ab".toList ≠ normalize_text "a\nb".toList := by decide

/-- Claim C3, amended: for every two texts that differ only by inserted or
removed space and tab characters (whitespace other than line breaks),
normalize_text yields equal sequences of lines. -/
theorem normalize_text_whitespace_amended (t1 t2 : List Char)
    (h : eraseSpaceTab t1 = eraseSpaceTab t2) :
    normalize_text t1 = normalize_text t2 := by
  rw [← normalize_text_eraseSpaceTab t1, h, normalize_text_eraseSpaceTab]

/-- Witness for the amended Claim C3 at a concrete pair of texts. -/
theorem normalize_text_whitespace_amended_witness :
    normalize_text "a b".toList = normalize_text "ab".toList :=
  normalize_text_whitespace_amended "a b".toList "ab".toList (by decide)

/-- Claim C10: check_ordered_subsequence_with_missing is total; the
indexing normalize_text(line)[0] never fails, because every kept line has
a non-whitespace character and then normalize_text is non-empty. -/
theorem check_ordered_subsequence_total (expected actual : List (List Char)) :
    (check_ordered_subsequence_with_missing expected actual).isSome = true := by
  obtain ⟨ef, he⟩ := Option.isSome_iff_exists.mp (normFragments_isSome expected)
  obtain ⟨af, ha⟩ := Option.isSome_iff_exists.mp (normFragments_isSome actual)
  simp [check_ordered_subsequence_with_missing, he, ha]

/-- Claim C5: an empty expected list always succeeds; the check succeeds
exactly when the normalized expected fragments occur, in their given
relative order, as substrings of the normalized actual lines; and for a
concrete log, fragments in occurrence order succeed while the reordered
fragments fail. -/
theorem check_ordered_subsequence_spec :
    (∀ actual, check_ordered_subsequence_with_missing [] actual = some true) ∧
    (∀ expected actual,
      check_ordered_subsequence_with_missing expected actual = some true ↔
        ∃ ef af, normFragments expected = some ef ∧ normFragments actual = some af ∧
          MatchesInOrder ef af) ∧
    (check_ordered_subsequence_with_missing
        ["seq".toList, "stop".toList]
        ["! seq here".toList, "noise".toList, ". . stop".toList] = some true ∧
      check_ordered_subsequence_with_missing
        ["stop".toList, "seq".toList]
        ["! seq here".toList, "noise".toList, ". . stop".toList] = some false) := by
  refine ⟨?_, ?_, by decide, by decide⟩
  · intro actual
    obtain ⟨af, ha⟩ := Option.isSome_iff_exists.mp (normFragments_isSome actual)
    have he : normFragments [] = some [] := rfl
    simp [check_ordered_subsequence_with_missing, he, ha, scanExpected]
  · intro expected actual
    constructor
    · intro h
      obtain ⟨ef, he⟩ := Option.isSome_iff_exists.mp (normFragments_isSome expected)
      obtain ⟨af, ha⟩ := Option.isSome_iff_exists.mp (normFragments_isSome actual)
      refine ⟨ef, af, he, ha, ?_⟩
      rw [check_ordered_subsequence_with_missing] at h
      rw [he, ha] at h
      simp at h
      exact scanExpected_sound af ef h
    · rintro ⟨ef, af, he, ha, hm⟩
      have hs := scanExpected_complete af ef hm
      rw [check_ordered_subsequence_with_missing]
      rw [he, ha]
      simp [hs]

/-- Witness for Claim C5 at a concrete actual log. -/
theorem check_ordered_subsequence_spec_witness :
    check_ordered_subsequence_with_missing [] ["x y".toList] = some true :=
  check_ordered_subsequence_spec.1 ["x y".toList]

/-- Claim C8: the concrete continuation example merges as specified, and a
non-empty final buffer is always emitted as the last output line. -/
theorem merge_lines_spec :
    (merge_lines_with_continuation ["foo~".toList, "bar".toList, "baz~".toList, "qux".toList]
      = ["foobar".toList, "bazqux".toList]) ∧
    (∀ lines, finalBuffer lines ≠ [] →
      ∃ init, merge_lines_with_continuation lines = init ++ [finalBuffer lines]) := by
  refine ⟨by decide, ?_⟩
  intro lines h
  exact mergeLinesAux_final_buffer lines [] h

/-- Witness for Claim C8: a single unterminated continuation line is still
emitted. -/
theorem merge_lines_spec_witness :
    ∃ init, merge_lines_with_continuation ["ab~".toList]
      = init ++ [finalBuffer ["ab~".toList]] :=
  merge_lines_spec.2 ["ab~".toList] (by decide)

/-- Claim C4: incrementing the failure counter terminates the program with
exit status 1 exactly when the updated count reaches or exceeds the
ceiling (the boundary is inclusive); any such exit status is non-zero;
and below the ceiling the updated counter is returned. -/
theorem failure_counter_iadd_spec (c : FailureCounter) (n : Int) :
    ((c.iadd n = Except.error 1) ↔ c.count + n ≥ c.maxfail) ∧
    (∀ e, c.iadd n = Except.error e → e ≠ 0) ∧
    (c.count + n < c.maxfail → c.iadd n = Except.ok ⟨c.count + n, c.maxfail⟩) := by
  refine ⟨⟨?_, ?_⟩, ?_, ?_⟩
  · intro hE
    by_contra hlt
    push_neg at hlt
    simp only [FailureCounter.iadd] at hE
    rw [if_neg (not_le.mpr hlt)] at hE
    cases hE
  · intro hge
    simp only [FailureCounter.iadd]
    rw [if_pos hge]
  · intro e hE
    by_cases hge : c.count + n ≥ c.maxfail
    · simp only [FailureCounter.iadd] at hE
      rw [if_pos hge] at hE
      cases hE
      decide
    · simp only [FailureCounter.iadd] at hE
      rw [if_neg hge] at hE
      cases hE
  · intro hlt
    simp only [FailureCounter.iadd]
    rw [if_neg (not_le.mpr hlt)]

/-- Witness for Claim C4: reaching the ceiling exactly exits with status
1, staying below returns the updated counter. -/
theorem failure_counter_iadd_spec_witness :
    (FailureCounter.mk 4 5).iadd 1 = Except.error 1 ∧
    (FailureCounter.mk 0 5).iadd 2 = Except.ok ⟨2, 5⟩ :=
  ⟨(failure_counter_iadd_spec ⟨4, 5⟩ 1).1.mpr (by decide),
   (failure_counter_iadd_spec ⟨0, 5⟩ 2).2.2 (by decide)⟩

theorem setField_cons_pos {a : String} (b : Json) (rest : List (String × Json))
    {k : String} (v : Json) (ha : (a == k) = true) :
    setField ((a, b) :: rest) k v = (k, v) :: setField rest k v := by
  simp only [setField]
  rw [if_pos ha]

theorem setField_cons_neg {a : String} (b : Json) (rest : List (String × Json))
    {k : String} (v : Json) (ha : ¬ (a == k) = true) :
    setField ((a, b) :: rest) k v = (a, b) :: setField rest k v := by
  simp only [setField]
  rw [if_neg ha]

theorem findField_cons_pos {a : String} (b : Json) (rest : List (String × Json))
    {k : String} (ha : (a == k) = true) :
    findField ((a, b) :: rest) k = some b := by
  simp only [findField]
  rw [if_pos ha]

theorem findField_cons_neg {a : String} (b : Json) (rest : List (String × Json))
    {k : String} (ha : ¬ (a == k) = true) :
    findField ((a, b) :: rest) k = findField rest k := by
  simp only [findField]
  rw [if_neg ha]

theorem findField_setField_same (k : String) (v : Json) :
    ∀ fs, findField (setField fs k v) k = (findField fs k).map (fun _ => v) := by
  intro fs
  induction fs with
  | nil => rfl
  | cons kv rest ih =>
    obtain ⟨a, b⟩ := kv
    by_cases ha : (a == k) = true
    · rw [setField_cons_pos b rest v ha,
        findField_cons_pos v (setField rest k v) (show (k == k) = true by simp),
        findField_cons_pos b rest ha]
      rfl
    · rw [setField_cons_neg b rest v ha,
        findField_cons_neg b (setField rest k v) ha,
        findField_cons_neg b rest ha]
      exact ih

theorem findField_setField_of_ne (k k' : String) (v : Json) (h : k' ≠ k) :
    ∀ fs, findField (setField fs k v) k' = findField fs k' := by
  intro fs
  induction fs with
  | nil => rfl
  | cons kv rest ih =>
    obtain ⟨a, b⟩ := kv
    by_cases ha : (a == k) = true
    · have hak : a = k := by simpa using ha
      rw [setField_cons_pos b rest v ha,
        findField_cons_neg v (setField rest k v) (show ¬ (k == k') = true by simp [Ne.symm h]),
        findField_cons_neg b rest (show ¬ (a == k') = true by simp [hak, Ne.symm h])]
      exact ih
    · rw [setField_cons_neg b rest v ha]
      by_cases ha' : (a == k') = true
      · rw [findField_cons_pos b (setField rest k v) ha', findField_cons_pos b rest ha']
      · rw [findField_cons_neg b (setField rest k v) ha', findField_cons_neg b rest ha']
        exact ih

theorem setField_setField_same (k : String) (v w : Json) :
    ∀ fs, setField (setField fs k v) k w = setField fs k w := by
  intro fs
  induction fs with
  | nil => rfl
  | cons kv rest ih =>
    obtain ⟨a, b⟩ := kv
    by_cases ha : (a == k) = true
    · rw [setField_cons_pos b rest v ha,
        setField_cons_pos v (setField rest k v) w (show (k == k) = true by simp),
        setField_cons_pos b rest w ha, ih]
    · rw [setField_cons_neg b rest v ha,
        setField_cons_neg b (setField rest k v) w ha,
        setField_cons_neg b rest w ha, ih]

theorem setField_comm (k k' : String) (v w : Json) (h : k ≠ k') :
    ∀ fs, setField (setField fs k v) k' w = setField (setField fs k' w) k v := by
  intro fs
  induction fs with
  | nil => rfl
  | cons kv rest ih =>
    obtain ⟨a, b⟩ := kv
    by_cases ha : (a == k) = true
    · have hak : a = k := by simpa using ha
      rw [setField_cons_pos b rest v ha,
        setField_cons_neg v (setField rest k v) w (show ¬ (k == k') = true by simp [h]),
        setField_cons_neg b rest w (show ¬ (a == k') = true by simp [hak, h]),
        setField_cons_pos b (setField rest k' w) v ha, ih]
    · by_cases ha' : (a == k') = true
      · have hak' : a = k' := by simpa using ha'
        rw [setField_cons_neg b rest v ha,
          setField_cons_pos b (setField rest k v) w ha',
          setField_cons_pos b rest w ha',
          setField_cons_neg w (setField rest k' w) v (show ¬ (k' == k) = true by simp [Ne.symm h]),
          ih]
      · rw [setField_cons_neg b rest v ha,
          setField_cons_neg b (setField rest k v) w ha',
          setField_cons_neg b rest w ha',
          setField_cons_neg b (setField rest k' w) v ha, ih]

theorem find?_setKey_same (j : Json) (k : String) (v : Json) :
    (j.setKey k v).find? k = (j.find? k).map (fun _ => v) := by
  cases j <;> simp only [Json.setKey, Json.find?, Option.map_none']
  exact findField_setField_same k v _

theorem find?_setKey_of_ne (j : Json) (k k' : String) (v : Json) (h : k' ≠ k) :
    (j.setKey k v).find? k' = j.find? k' := by
  cases j <;> simp only [Json.setKey, Json.find?]
  exact findField_setField_of_ne k k' v h _

theorem hasKey_setKey (j : Json) (k k' : String) (v : Json) :
    (j.setKey k v).hasKey k' = j.hasKey k' := by
  by_cases h : k' = k
  · subst h
    simp [Json.hasKey, find?_setKey_same]
  · simp [Json.hasKey, find?_setKey_of_ne _ _ _ _ h]

theorem setKey_setKey_same (j : Json) (k : String) (v w : Json) :
    (j.setKey k v).setKey k w = j.setKey k w := by
  cases j <;> simp only [Json.setKey]
  rw [setField_setField_same]

theorem setKey_comm (j : Json) (k k' : String) (v w : Json) (h : k ≠ k') :
    (j.setKey k v).setKey k' w = (j.setKey k' w).setKey k v := by
  cases j <;> simp only [Json.setKey]
  rw [setField_comm _ _ _ _ h]

theorem condSet_eq_of_hasKey {j : Json} {k : String} (v : Json) (h : j.hasKey k = true) :
    j.condSet k v = j.setKey k v := by
  rw [Json.condSet, if_pos h]

theorem condSet_eq_of_not_hasKey {j : Json} {k : String} (v : Json) (h : ¬ j.hasKey k = true) :
    j.condSet k v = j := by
  rw [Json.condSet, if_neg h]

theorem hasKey_condSet (j : Json) (k k' : String) (v : Json) :
    (j.condSet k v).hasKey k' = j.hasKey k' := by
  rw [Json.condSet]
  by_cases h : j.hasKey k = true
  · rw [if_pos h, hasKey_setKey]
  · rw [if_neg h]

theorem find?_condSet_of_ne (j : Json) (k k' : String) (v : Json) (h : k' ≠ k) :
    (j.condSet k v).find? k' = j.find? k' := by
  rw [Json.condSet]
  by_cases hk : j.hasKey k = true
  · rw [if_pos hk, find?_setKey_of_ne _ _ _ _ h]
  · rw [if_neg hk]

theorem condSet_condSet_same (j : Json) (k : String) (v : Json) :
    (j.condSet k v).condSet k v = j.condSet k v := by
  rw [Json.condSet, Json.condSet]
  by_cases hk : j.hasKey k = true
  · rw [if_pos hk]
    rw [show (if ((j.setKey k v).hasKey k = true) then (j.setKey k v).setKey k v else j.setKey k v)
        = (j.setKey k v).setKey k v from if_pos (by rw [hasKey_setKey]; exact hk)]
    rw [setKey_setKey_same]
  · rw [if_neg hk, if_neg hk]

theorem condSet_setKey_comm (j : Json) (k k' : String) (v w : Json) (h : k ≠ k') :
    (j.setKey k' w).condSet k v = (j.condSet k v).setKey k' w := by
  rw [Json.condSet, Json.condSet]
  by_cases hk : j.hasKey k = true
  · rw [if_pos (by rw [hasKey_setKey]; exact hk), if_pos hk]
    exact setKey_comm j k' k w v (Ne.symm h)
  · rw [if_neg (by rw [hasKey_setKey]; exact hk), if_neg hk]

theorem condSet_comm (j : Json) (k k' : String) (v w : Json) (h : k ≠ k') :
    (j.condSet k v).condSet k' w = (j.condSet k' w).condSet k v := by
  by_cases hk : j.hasKey k = true
  · rw [condSet_eq_of_hasKey v hk]
    rw [condSet_setKey_comm j k' k w v (Ne.symm h)]
    rw [condSet_eq_of_hasKey v
      (show (j.condSet k' w).hasKey k = true from by rw [hasKey_condSet]; exact hk)]
  · rw [condSet_eq_of_not_hasKey v hk]
    rw [condSet_eq_of_not_hasKey v
      (show ¬ (j.condSet k' w).hasKey k = true from by rw [hasKey_condSet]; exact hk)]

theorem find?_mapArrAt_of_ne (k k' : String) (f : Json → Json) (j : Json) (h : k' ≠ k) :
    (mapArrAt k f j).find? k' = j.find? k' := by
  rw [mapArrAt]
  cases hf : j.find? k with
  | none => rfl
  | some x =>
    cases x <;> first
      | rfl
      | exact find?_setKey_of_ne _ _ _ _ h

theorem hasKey_mapArrAt (k k' : String) (f : Json → Json) (j : Json) :
    (mapArrAt k f j).hasKey k' = j.hasKey k' := by
  rw [mapArrAt]
  cases hf : j.find? k with
  | none => rfl
  | some x =>
    cases x <;> first
      | rfl
      | exact hasKey_setKey _ _ _ _

theorem condSet_mapArrAt_comm (k k' : String) (f : Json → Json) (j : Json) (v : Json)
    (h : k' ≠ k) : (mapArrAt k f j).condSet k' v = mapArrAt k f (j.condSet k' v) := by
  rw [mapArrAt, mapArrAt]
  cases hf : j.find? k with
  | none =>
    rw [show (j.condSet k' v).find? k = none from by
      rw [find?_condSet_of_ne _ _ _ _ (Ne.symm h)]; exact hf]
  | some x =>
    rw [show (j.condSet k' v).find? k = some x from by
      rw [find?_condSet_of_ne _ _ _ _ (Ne.symm h)]; exact hf]
    cases x
    case arr xs => exact condSet_setKey_comm j k' k v (Json.arr (xs.map f)) h
    all_goals rfl

theorem mapArrAt_mapArrAt (k : String) (f g : Json → Json) (j : Json) :
    mapArrAt k f (mapArrAt k g j) = mapArrAt k (fun x => f (g x)) j := by
  cases hf : j.find? k with
  | none =>
    have h1 : mapArrAt k g j = j := by rw [mapArrAt, hf]
    rw [h1, mapArrAt, hf, mapArrAt, hf]
  | some x =>
    cases x
    case arr xs =>
      have h1 : mapArrAt k g j = j.setKey k (Json.arr (xs.map g)) := by rw [mapArrAt, hf]
      have h2 : mapArrAt k (fun x => f (g x)) j
          = j.setKey k (Json.arr (xs.map (fun x => f (g x)))) := by rw [mapArrAt, hf]
      have h3 : mapArrAt k f (j.setKey k (Json.arr (xs.map g)))
          = (j.setKey k (Json.arr (List.map g xs))).setKey k
              (Json.arr (List.map f (List.map g xs))) := by
        rw [mapArrAt,
          show (j.setKey k (Json.arr (xs.map g))).find? k = some (Json.arr (xs.map g)) from by
            rw [find?_setKey_same, hf]; rfl]
      rw [h1, h2, h3, setKey_setKey_same, List.map_map]
      rfl
    all_goals (
      have h1 : mapArrAt k g j = j := by rw [mapArrAt, hf]
      rw [h1, mapArrAt, hf, mapArrAt, hf])

theorem mapArrAt_congr (k : String) {f g : Json → Json} (h : ∀ x, f x = g x) (j : Json) :
    mapArrAt k f j = mapArrAt k g j := by
  have hfg : f = g := funext h
  rw [hfg]

theorem normalizeOutput_idem (o : Json) :
    normalizeOutput (normalizeOutput o) = normalizeOutput o := by
  unfold normalizeOutput
  rw [condSet_comm (o.condSet "execution_count" Json.null) "metadata" "execution_count"
    (Json.obj []) Json.null (by decide)]
  rw [condSet_condSet_same, condSet_condSet_same]

theorem normalizeCell_idem (c : Json) :
    normalizeCell (normalizeCell c) = normalizeCell c := by
  unfold normalizeCell
  rw [condSet_mapArrAt_comm "outputs" "execution_count" normalizeOutput
    ((c.condSet "execution_count" Json.null).condSet "metadata" (Json.obj []))
    Json.null (by decide)]
  rw [condSet_mapArrAt_comm "outputs" "metadata" normalizeOutput
    (((c.condSet "execution_count" Json.null).condSet "metadata" (Json.obj [])).condSet
      "execution_count" Json.null)
    (Json.obj []) (by decide)]
  rw [mapArrAt_mapArrAt]
  rw [condSet_comm (c.condSet "execution_count" Json.null) "metadata" "execution_count"
    (Json.obj []) Json.null (by decide)]
  rw [condSet_condSet_same, condSet_condSet_same]
  exact mapArrAt_congr _ (fun x => normalizeOutput_idem x) _

theorem normalize_notebook_idem (nb : Json) :
    normalize_notebook (normalize_notebook nb) = normalize_notebook nb := by
  unfold normalize_notebook
  rw [condSet_mapArrAt_comm "cells" "metadata" normalizeCell
    (nb.condSet "metadata" (Json.obj [])) (Json.obj []) (by decide)]
  rw [mapArrAt_mapArrAt]
  rw [condSet_condSet_same]
  exact mapArrAt_congr _ (fun x => normalizeCell_idem x) _

theorem normalizeOutput_clearOutputExec (o : Json) :
    normalizeOutput (clearOutputExec o) = normalizeOutput o := by
  unfold normalizeOutput clearOutputExec
  rw [condSet_condSet_same]

theorem normalizeCell_clearCellExec (c : Json) :
    normalizeCell (clearCellExec c) = normalizeCell c := by
  unfold normalizeCell clearCellExec
  rw [condSet_mapArrAt_comm "outputs" "execution_count" clearOutputExec
    (c.condSet "execution_count" Json.null) Json.null (by decide)]
  rw [condSet_condSet_same]
  rw [condSet_mapArrAt_comm "outputs" "metadata" clearOutputExec
    (c.condSet "execution_count" Json.null) (Json.obj []) (by decide)]
  rw [mapArrAt_mapArrAt]
  exact mapArrAt_congr _ (fun x => normalizeOutput_clearOutputExec x) _

theorem normalize_notebook_clearExecCounts (nb : Json) :
    normalize_notebook (clearExecCounts nb) = normalize_notebook nb := by
  unfold normalize_notebook clearExecCounts
  rw [condSet_mapArrAt_comm "cells" "metadata" clearCellExec nb (Json.obj []) (by decide)]
  rw [mapArrAt_mapArrAt]
  exact mapArrAt_congr _ (fun x => normalizeCell_clearCellExec x) _

theorem cells_mapArrAt (f : Json → Json) (nb : Json) :
    (mapArrAt "cells" f nb).cells = nb.cells.map f := by
  cases hf : nb.find? "cells" with
  | none =>
    have h0 : mapArrAt "cells" f nb = nb := by rw [mapArrAt, hf]
    have h1 : nb.cells = [] := by rw [Json.cells, hf]
    rw [h0, h1]
    rfl
  | some x =>
    cases x
    case arr cs =>
      have h0 : mapArrAt "cells" f nb = nb.setKey "cells" (Json.arr (cs.map f)) := by
        rw [mapArrAt, hf]
      have h1 : nb.cells = cs := by rw [Json.cells, hf]
      have h2 : (nb.setKey "cells" (Json.arr (cs.map f))).find? "cells"
          = some (Json.arr (cs.map f)) := by
        rw [find?_setKey_same, hf]
        rfl
      rw [h0, Json.cells, h2, h1]
    all_goals (
      have h0 : mapArrAt "cells" f nb = nb := by rw [mapArrAt, hf]
      have h1 : nb.cells = [] := by rw [Json.cells, hf]
      rw [h0, h1]
      rfl)

theorem cells_condSet_of_ne (nb : Json) (k : String) (v : Json) (h : k ≠ "cells") :
    (nb.condSet k v).cells = nb.cells := by
  rw [Json.cells, find?_condSet_of_ne nb k "cells" v (Ne.symm h), Json.cells]

theorem cells_normalize_notebook (nb : Json) :
    (normalize_notebook nb).cells = nb.cells.map normalizeCell := by
  unfold normalize_notebook
  rw [cells_mapArrAt, cells_condSet_of_ne _ _ _ (by decide)]

theorem find?_normalizeCell_of_ne (c : Json) (k : String)
    (h1 : k ≠ "execution_count") (h2 : k ≠ "metadata") (h3 : k ≠ "outputs") :
    (normalizeCell c).find? k = c.find? k := by
  unfold normalizeCell
  rw [find?_mapArrAt_of_ne _ _ _ _ h3, find?_condSet_of_ne _ _ _ _ h2,
    find?_condSet_of_ne _ _ _ _ h1]

theorem cellField_normalize_notebook (k : String)
    (h1 : k ≠ "execution_count") (h2 : k ≠ "metadata") (h3 : k ≠ "outputs") (nb : Json) :
    cellField k (normalize_notebook nb) = cellField k nb := by
  unfold cellField
  rw [cells_normalize_notebook, List.map_map]
  apply List.map_congr_left
  intro c _
  show (normalizeCell c).find? k = c.find? k
  exact find?_normalizeCell_of_ne c k h1 h2 h3

theorem outputsArr_mapArrAt (f : Json → Json) (c : Json) :
    (mapArrAt "outputs" f c).outputsArr = c.outputsArr.map f := by
  cases hf : c.find? "outputs" with
  | none =>
    have h0 : mapArrAt "outputs" f c = c := by rw [mapArrAt, hf]
    have h1 : c.outputsArr = [] := by rw [Json.outputsArr, hf]
    rw [h0, h1]
    rfl
  | some x =>
    cases x
    case arr os =>
      have h0 : mapArrAt "outputs" f c = c.setKey "outputs" (Json.arr (os.map f)) := by
        rw [mapArrAt, hf]
      have h1 : c.outputsArr = os := by rw [Json.outputsArr, hf]
      have h2 : (c.setKey "outputs" (Json.arr (os.map f))).find? "outputs"
          = some (Json.arr (os.map f)) := by
        rw [find?_setKey_same, hf]
        rfl
      rw [h0, Json.outputsArr, h2, h1]
    all_goals (
      have h0 : mapArrAt "outputs" f c = c := by rw [mapArrAt, hf]
      have h1 : c.outputsArr = [] := by rw [Json.outputsArr, hf]
      rw [h0, h1]
      rfl)

theorem outputsArr_condSet_of_ne (c : Json) (k : String) (v : Json) (h : k ≠ "outputs") :
    (c.condSet k v).outputsArr = c.outputsArr := by
  rw [Json.outputsArr, find?_condSet_of_ne c k "outputs" v (Ne.symm h), Json.outputsArr]

theorem outputsArr_normalizeCell (c : Json) :
    (normalizeCell c).outputsArr = c.outputsArr.map normalizeOutput := by
  unfold normalizeCell
  rw [outputsArr_mapArrAt, outputsArr_condSet_of_ne _ _ _ (by decide),
    outputsArr_condSet_of_ne _ _ _ (by decide)]

theorem find?_normalizeOutput_of_ne (o : Json) (k : String)
    (h1 : k ≠ "execution_count") (h2 : k ≠ "metadata") :
    (normalizeOutput o).find? k = o.find? k := by
  unfold normalizeOutput
  rw [find?_condSet_of_ne _ _ _ _ h2, find?_condSet_of_ne _ _ _ _ h1]

theorem outputTexts_normalize_notebook (nb : Json) :
    outputTexts (normalize_notebook nb) = outputTexts nb := by
  unfold outputTexts
  rw [cells_normalize_notebook, List.map_map]
  apply List.map_congr_left
  intro c _
  show (normalizeCell c).outputsArr.map (fun o => o.find? "text")
      = c.outputsArr.map (fun o => o.find? "text")
  rw [outputsArr_normalizeCell, List.map_map]
  apply List.map_congr_left
  intro o _
  show (normalizeOutput o).find? "text" = o.find? "text"
  exact find?_normalizeOutput_of_ne o "text" (by decide) (by decide)

/-- Claim C6: normalize_notebook is idempotent, preserves the order of
cells and outputs and the cell source text, maps two records that differ
only in execution counters to equal structures, and maps two records
that differ in cell source text to different structures. -/
theorem normalize_notebook_spec :
    (∀ nb, normalize_notebook (normalize_notebook nb) = normalize_notebook nb) ∧
    (∀ nb, cellSources (normalize_notebook nb) = cellSources nb ∧
      outputTexts (normalize_notebook nb) = outputTexts nb ∧
      (normalize_notebook nb).cells.length = nb.cells.length) ∧
    (∀ a b, clearExecCounts a = clearExecCounts b →
      normalize_notebook a = normalize_notebook b) ∧
    (∀ a b, cellSources a ≠ cellSources b →
      normalize_notebook a ≠ normalize_notebook b) := by
  refine ⟨normalize_notebook_idem, ?_, ?_, ?_⟩
  · intro nb
    refine ⟨cellField_normalize_notebook "source" (by decide) (by decide) (by decide) nb,
      outputTexts_normalize_notebook nb, ?_⟩
    rw [cells_normalize_notebook, List.length_map]
  · intro a b h
    rw [← normalize_notebook_clearExecCounts a, h, normalize_notebook_clearExecCounts]
  · intro a b hne heq
    apply hne
    show cellField "source" a = cellField "source" b
    rw [← cellField_normalize_notebook "source" (by decide) (by decide) (by decide) a, heq,
      cellField_normalize_notebook "source" (by decide) (by decide) (by decide) b]

/-- Witness for Claim C6: two concrete notebooks differing only in
execution counters normalize to the same structure; two differing in
source text do not. -/
theorem normalize_notebook_spec_witness :
    normalize_notebook nbWitExecA = normalize_notebook nbWitExecB ∧
    normalize_notebook nbWitSrcA ≠ normalize_notebook nbWitSrcB :=
  ⟨normalize_notebook_spec.2.2.1 nbWitExecA nbWitExecB rfl,
   normalize_notebook_spec.2.2.2 nbWitSrcA nbWitSrcB
     (show ([some (Json.str "print(1)")] : List (Option Json))
        ≠ [some (Json.str "print(2)")] by simp)⟩

/-- Claim C9: normalize_notebook leaves the per-cell id fields unchanged,
so two notebooks with different cell ids keep different normalized
forms and id-only differences are reported as content mismatches. -/
theorem normalize_notebook_keeps_ids :
    (∀ nb, cellIds (normalize_notebook nb) = cellIds nb) ∧
    (∀ a b, cellIds a ≠ cellIds b →
      normalize_notebook a ≠ normalize_notebook b) := by
  constructor
  · intro nb
    exact cellField_normalize_notebook "id" (by decide) (by decide) (by decide) nb
  · intro a b hne heq
    apply hne
    show cellField "id" a = cellField "id" b
    rw [← cellField_normalize_notebook "id" (by decide) (by decide) (by decide) a, heq,
      cellField_normalize_notebook "id" (by decide) (by decide) (by decide) b]

/-- Witness for Claim C9: two concrete notebooks identical except for a
cell id normalize to different structures. -/
theorem normalize_notebook_keeps_ids_witness :
    normalize_notebook nbWitIdA ≠ normalize_notebook nbWitIdB :=
  normalize_notebook_keeps_ids.2 nbWitIdA nbWitIdB
    (show ([some (Json.str "a")] : List (Option Json)) ≠ [some (Json.str "b")] by simp)

theorem resolveArgs_xsim (fs : FS) :
    ∀ (args ts : List FsPath), resolveArgs fs args = Except.ok ts →
      ∀ p ∈ ts, is_in_xsim_files_dir p = true → p ∈ args := by
  intro args
  induction args with
  | nil =>
    intro ts h p hp hx
    cases h
    cases hp
  | cons q rest ih =>
    intro ts h p hp hx
    rw [resolveArgs] at h
    by_cases h1 : (fs.isFile q && pyEndsWith (basenameOf q) ".tex") = true
    · rw [if_pos h1] at h
      cases hrest : resolveArgs fs rest with
      | error e =>
        rw [hrest] at h
        simp only [Except.map] at h
        cases h
      | ok ts' =>
        rw [hrest] at h
        simp only [Except.map] at h
        cases h
        cases hp with
        | head => exact List.mem_cons_self _ _
        | tail _ hmem => exact List.mem_cons_of_mem _ (ih ts' hrest p hmem hx)
    · rw [if_neg h1] at h
      by_cases h2 : fs.isDir q = true
      · rw [if_pos h2] at h
        cases hrest : resolveArgs fs rest with
        | error e =>
          rw [hrest] at h
          simp only [Except.map] at h
          cases h
        | ok ts' =>
          rw [hrest] at h
          simp only [Except.map] at h
          cases h
          rcases List.mem_append.mp hp with hmem | hmem
          · have hk := (List.mem_filter.mp hmem).2
            rw [hx] at hk
            cases hk
          · exact List.mem_cons_of_mem _ (ih ts' hrest p hmem hx)
      · rw [if_neg h2] at h
        cases h

/-- Claim C2, counterexample: a single .tex file argument lying under an
xsim-files directory is resolved and run, so the exclusion rule does not
apply to the single-file resolution mode. -/
theorem xsim_exclusion_counterexample :
    is_in_xsim_files_dir ["xsim-files", "test_a.tex"] = true ∧
    resolveTests ⟨[["xsim-files", "test_a.tex"]], []⟩ [["xsim-files", "test_a.tex"]]
      = Except.ok [["xsim-files", "test_a.tex"]] :=
  ⟨rfl, rfl⟩

/-- Claim C2, amended: every resolved test path that lies under an
xsim-files directory was passed explicitly as a file argument; in the
autodiscovery and directory modes such paths are always excluded. -/
theorem xsim_exclusion_amended (fs : FS) (args ts : List FsPath)
    (hres : resolveTests fs args = Except.ok ts) :
    ∀ p ∈ ts, is_in_xsim_files_dir p = true → p ∈ args := by
  intro p hp hx
  by_cases hargs : args.isEmpty = true
  · rw [resolveTests, if_pos hargs] at hres
    cases hres
    have hk := (List.mem_filter.mp hp).2
    rw [hx] at hk
    cases hk
  · rw [resolveTests, if_neg hargs] at hres
    exact resolveArgs_xsim fs args ts hres p hp hx

/-- Witness for the amended Claim C2 at a concrete file system. -/
theorem xsim_exclusion_amended_witness :
    (["xsim-files", "test_b.tex"] : FsPath) ∈ [(["xsim-files", "test_b.tex"] : FsPath)] :=
  xsim_exclusion_amended ⟨[["xsim-files", "test_b.tex"]], []⟩
    [["xsim-files", "test_b.tex"]] [["xsim-files", "test_b.tex"]] rfl
    ["xsim-files", "test_b.tex"] (List.mem_cons_self _ _) rfl

/-- Claim C1 (recording the code bug): with one failing prerequisite and
an otherwise passing normal test in strict mode, the pipeline still
compiles the main document, runs every later step, prints FAIL for the
prerequisite and then PASS, and counts one failure; nothing after the
prerequisite loop is skipped, because the continue statement of the
source targets the requires loop, not the test loop. -/
theorem prereq_failure_does_not_skip_steps :
    runOneTest ⟨[1], 0, false, false, false, true, 0, false, true, true,
        false, false, false, false, 0⟩ false
      = ⟨[StatusP.fail, StatusP.pass], 1, false, true, true⟩ := rfl

/-- Claim C7: a normal test whose prerequisites and main compile succeed,
whose PDF exists and converts with no unprocessed marker, and which has
no recorded expected text, prints FAIL in strict mode and REGOLDED in
regold mode, copies the actual text to the expected file in both modes,
and increments the failure counter in both modes. -/
theorem missing_expected_text_spec (env : PipeEnv) (regold : Bool)
    (hft : env.isFailTest = false)
    (hpre : ∀ r ∈ env.prereqRets, r = 0)
    (hmain : env.mainRet = 0)
    (hpdf : env.pdfExists = true)
    (hconv : env.pdftotextRet = 0)
    (hmark : env.hasMarker = false)
    (hexp : env.expectedTxtExists = false) :
    runOneTest env regold =
      ⟨[if regold then StatusP.regolded else StatusP.fail], 1, true, true, false⟩ := by
  have hfil : env.prereqRets.filter (fun r => decide (r ≠ 0)) = [] := by
    rw [List.filter_eq_nil_iff]
    intro r hr
    simp [hpre r hr]
  simp [runOneTest, prereqStep, hfil, hft, hmain, hpdf, hconv, hmark, hexp]
  exact hpre

/-- Witness for Claim C7 at a concrete environment, in both modes. -/
theorem missing_expected_text_spec_witness :
    runOneTest ⟨[], 0, false, false, false, true, 0, false, false, false,
        false, false, false, false, 0⟩ false
      = ⟨[StatusP.fail], 1, true, true, false⟩ ∧
    runOneTest ⟨[], 0, false, false, false, true, 0, false, false, false,
        false, false, false, false, 0⟩ true
      = ⟨[StatusP.regolded], 1, true, true, false⟩ :=
  ⟨missing_expected_text_spec _ false rfl (by simp) rfl rfl rfl rfl rfl,
   missing_expected_text_spec _ true rfl (by simp) rfl rfl rfl rfl rfl⟩
